import Mathlib

/-!
Shallow embedding of the `fluids.design_climate_ms` modules
(`calculations.py`, `geocoding.py`, `weather_data.py`) and proofs of the
specification's claims about them.  Numeric values are modelled as rationals;
the pandas missing-value markers (Python `None` and float NaN) are modelled
explicitly as constructors, since the pipeline distinguishes them.
-/

namespace Fluids

/-! ### calculations.py -/

/-- Embedding of `heating_degree_days` (calculations.py lines 14-58):
`diff = T_base - T; if truncate: return max(0.0, diff); return diff`. -/
def heating_degree_days (T T_base : ℚ) (truncate : Bool) : ℚ :=
  let diff := T_base - T
  if truncate then max 0 diff else diff

/-- Embedding of `cooling_degree_days` (calculations.py lines 61-105):
`diff = T - T_base; if truncate: return max(0.0, diff); return diff`. -/
def cooling_degree_days (T T_base : ℚ) (truncate : Bool) : ℚ :=
  let diff := T - T_base
  if truncate then max 0 diff else diff

/-! ### geocoding.py : SimpleGeolocatorCache

The SQLite table `geopy (address TEXT PRIMARY KEY, latitude REAL,
longitude REAL)` is modelled as an association list of rows.  `INSERT OR
REPLACE` removes the row with the same primary key and inserts the new one;
`SELECT latitude, longitude ... WHERE address = ?` finds the row for the key;
`SELECT COUNT(*)` is the number of rows. -/

/-- A row of the `geopy` table: (address, latitude, longitude). -/
def CacheDB : Type := List (String × ℚ × ℚ)

/-- Embedding of `SimpleGeolocatorCache.cached_address` (geocoding.py lines
82-89): exact-key lookup returning the (latitude, longitude) pair or `none`. -/
def cached_address (address : String) (db : CacheDB) : Option (ℚ × ℚ) :=
  (db.find? (fun row => row.1 = address)).map (fun row => row.2)

/-- Embedding of `SimpleGeolocatorCache.cache_address` (geocoding.py lines
91-98): `INSERT OR REPLACE` keyed on the primary key `address`. -/
def cache_address (address : String) (latitude longitude : ℚ) (db : CacheDB) :
    CacheDB :=
  (address, latitude, longitude) :: db.filter (fun row => ¬ row.1 = address)

/-- Embedding of `SimpleGeolocatorCache.clear` (geocoding.py lines 100-104). -/
def cache_clear (_db : CacheDB) : CacheDB := []

/-- Embedding of `SimpleGeolocatorCache.__len__` (geocoding.py lines 106-109):
`SELECT COUNT(*) FROM geopy`, the number of rows of the table. -/
def cache_len (db : CacheDB) : Nat := db.length

/-- Addresses present in the table. -/
def cacheKeys (db : CacheDB) : List String := db.map (fun row => row.1)

/-! ### geocoding.py : geocode orchestration

One call of `geocode` is modelled against an environment fixing the facts the
Python run depends on: whether `geopy` imported, whether the cache open/read
raises, whether the cache write raises, the cache table contents, and the
external provider's answer for each address. -/

/-- Environment of one `geocode` call: `geopyAvailable` is the
`_GEOPY_AVAILABLE` flag (geocoding.py lines 17-24), `cacheOk` is whether
`geopy_cache()` plus `cached_address` succeed (the `try` at lines 178-184),
`writeOk` is whether `cache_address` succeeds (the `try` at lines 198-202),
`cacheDB` the table contents, and `provider` the response of
`geocoder.geocode(address)` with `none` for no match. -/
structure GeoWorld where
  geopyAvailable : Bool
  cacheOk : Bool
  writeOk : Bool
  cacheDB : CacheDB
  provider : String → Option (ℚ × ℚ)

/-- The exceptions `geocode` raises (geocoding.py lines 159-164, 174-175,
188-193): `ImportError` when geopy is missing, `ValueError` carrying the
address when the provider has no match. -/
inductive GeoErr where
  | importErr : GeoErr
  | valueErr (address : String) : GeoErr
deriving DecidableEq

/-- Observable outcome of one `geocode` call: returned pair or raised
exception, number of provider invocations, number of cache read attempts,
and the final cache contents. -/
structure GeoOutcome where
  result : Except GeoErr (ℚ × ℚ)
  providerCalls : Nat
  cacheReads : Nat
  finalDB : CacheDB

/-- Embedding of `geopy_geolocator` (geocoding.py lines 121-131): `None`
exactly when geopy is unavailable, otherwise the geocoder, modelled by its
lookup function. -/
def geopy_geolocator (w : GeoWorld) : Option (String → Option (ℚ × ℚ)) :=
  if w.geopyAvailable then some w.provider else none

/-- The online-lookup tail of `geocode` (geocoding.py lines 186-204).
`cacheUsable` says whether the local `cache` variable still holds the cache
(the handler at line 184 sets it to `None` after a read failure, which skips
the write at lines 198-202).  A write failure is swallowed (line 201-202),
leaving the table unchanged. -/
def geocodeOnline (w : GeoWorld) (address : String) (cacheUsable : Bool) :
    GeoOutcome :=
  match geopy_geolocator w with
  | none => ⟨Except.error GeoErr.importErr, 0, 1, w.cacheDB⟩
  | some geocoder =>
      match geocoder address with
      | none => ⟨Except.error (GeoErr.valueErr address), 1, 1, w.cacheDB⟩
      | some r =>
          let db :=
            if cacheUsable && w.writeOk then cache_address address r.1 r.2 w.cacheDB
            else w.cacheDB
          ⟨Except.ok r, 1, 1, db⟩

/-- Embedding of `geocode` (geocoding.py lines 144-204): import gate, cache
read attempt inside `try` (a read failure degrades to a miss with the cache
variable cleared), then the online lookup. -/
def geocode (w : GeoWorld) (address : String) : GeoOutcome :=
  if ¬ w.geopyAvailable then
    ⟨Except.error GeoErr.importErr, 0, 0, w.cacheDB⟩
  else
    match (if w.cacheOk then some (cached_address address w.cacheDB) else none) with
    | some (some r) => ⟨Except.ok r, 0, 1, w.cacheDB⟩
    | some none => geocodeOnline w address true
    | none => geocodeOnline w address false

/-! ### weather_data.py : monthly aggregation

`month_average_temperature` and `month_average_windspeed` (weather_data.py
lines 203-313) share one pipeline over the fetched daily window: group by
(year, month), per-group mean and non-missing count, NA-out groups under the
`min_days` threshold, then a per-month mean of the surviving means.  pandas
represents a missing daily value and an NA-ed mean as NaN and skips NaN in
means, while `monthly.get(m)` yields Python `None` for a month absent from
the index; the profile entry domain therefore has three kinds of values. -/

/-- A row of the fetched daily window: calendar year and month (1-12) from
`df['time']`, and the optional observed field value (`temp` or `wspd`);
`none` is a missing (NaN) daily value. -/
structure DailyRecord where
  year : Int
  month : Nat
  value : Option ℚ
deriving DecidableEq

/-- One profile entry as built at weather_data.py line 260: Python `None`
(month absent from the grouped index), float NaN (every surviving mean for
the month was NA), or a number. -/
inductive Entry where
  | unset : Entry
  | nan : Entry
  | val (q : ℚ) : Entry
deriving DecidableEq

/-- Whether an entry holds an actual number. -/
def Entry.isSet : Entry → Bool
  | Entry.val _ => true
  | _ => false

/-- The distinct (year, month) keys of the window: the index of
`df.groupby(['year', 'month'])`. -/
def groupKeys (rs : List DailyRecord) : List (Int × Nat) :=
  (rs.map (fun r => (r.year, r.month))).dedup

/-- The non-missing field values of the (y, m) group; pandas `mean` and
`count` both skip NaN. -/
def groupVals (rs : List DailyRecord) (y : Int) (m : Nat) : List ℚ :=
  rs.filterMap (fun r => if r.year = y ∧ r.month = m then r.value else none)

/-- `count=('temp', 'count')`: the number of non-missing values in the
group. -/
def groupCount (rs : List DailyRecord) (y : Int) (m : Nat) : Nat :=
  (groupVals rs y m).length

/-- pandas mean with skipna: NaN (`none`) on an empty list of values,
otherwise the arithmetic mean. -/
def pandasMean (l : List ℚ) : Option ℚ :=
  if l = [] then none else some (l.sum / l.length)

/-- `temp_mean` after the threshold step (weather_data.py line 255): the
group's mean, overwritten with NA when its count is below `min_days`. -/
def survivingMean (rs : List DailyRecord) (minDays : Nat) (y : Int) (m : Nat) :
    Option ℚ :=
  if groupCount rs y m < minDays then none else pandasMean (groupVals rs y m)

/-- One entry of `grouped.groupby('month')['temp_mean'].mean()` followed by
`monthly.get(m)` (weather_data.py lines 258-260): `unset` when no (year, m)
group exists, `nan` when every surviving mean of month `m` is NA, otherwise
the mean of the non-NA surviving means. -/
def monthEntry (rs : List DailyRecord) (minDays : Nat) (m : Nat) : Entry :=
  let keys := (groupKeys rs).filter (fun k => k.2 = m)
  if keys = [] then Entry.unset
  else
    match pandasMean (keys.filterMap
        (fun k => survivingMean rs minDays k.1 k.2)) with
    | none => Entry.nan
    | some q => Entry.val q

/-- Embedding of the aggregation pipeline of `month_average_temperature`
(weather_data.py lines 242-260) and `month_average_windspeed` (lines
297-313) over an already-fetched daily window: an empty window yields twelve
unset entries, otherwise one entry per month 1-12. -/
def month_average (rs : List DailyRecord) (minDays : Nat) : List Entry :=
  if rs = [] then List.replicate 12 Entry.unset
  else (List.range 12).map (fun i => monthEntry rs minDays (i + 1))

/-- Modelled from the spec's words (§4.2 step 3 and C1): the (year, month)
groups of month `m` whose valid-sample count reaches the threshold. -/
def qualifyingKeys (rs : List DailyRecord) (minDays : Nat) (m : Nat) :
    List (Int × Nat) :=
  (groupKeys rs).filter (fun k => k.2 = m ∧ minDays ≤ groupCount rs k.1 k.2)

/-- Modelled from the spec's words (§4.2 step 4): the unweighted arithmetic
mean of the per-(year, month) means over exactly the qualifying years, each
with weight 1. -/
def specMonthValue (rs : List DailyRecord) (minDays : Nat) (m : Nat) :
    Option ℚ :=
  pandasMean ((qualifyingKeys rs minDays m).map
    (fun k => (groupVals rs k.1 k.2).sum / (groupVals rs k.1 k.2).length))

/-! ### weather_data.py : coldest and warmest month -/

/-- A profile value that passes the `t is not None` filter at
weather_data.py lines 352 and 396: a float, either NaN or a number. -/
inductive PyF where
  | nan : PyF
  | val (q : ℚ) : PyF
deriving DecidableEq

/-- IEEE strict `<` on the scanned floats: any comparison against NaN is
false. -/
def pfLt : PyF → PyF → Bool
  | PyF.val a, PyF.val b => decide (a < b)
  | _, _ => false

/-- `valid = [(i, t) for i, t in enumerate(temps) if t is not None]`: keeps
NaN entries, drops only `None`. -/
def validEntries (p : List Entry) : List (Nat × PyF) :=
  p.enum.filterMap (fun it =>
    match it.2 with
    | Entry.unset => none
    | Entry.nan => some (it.1, PyF.nan)
    | Entry.val q => some (it.1, PyF.val q))

/-- Python `min(xs, key=lambda x: x[1])`: left scan keeping the current
minimum, replaced only when the new key compares strictly less. -/
def pymin : List (Nat × PyF) → Option (Nat × PyF)
  | [] => none
  | x :: xs =>
      some (xs.foldl (fun best y => if pfLt y.2 best.2 then y else best) x)

/-- Python `max(xs, key=lambda x: x[1])`: left scan keeping the current
maximum, replaced only when the new key compares strictly greater. -/
def pymax : List (Nat × PyF) → Option (Nat × PyF)
  | [] => none
  | x :: xs =>
      some (xs.foldl (fun best y => if pfLt best.2 y.2 then y else best) x)

/-- Embedding of `coldest_month` (weather_data.py lines 348-357) applied to
the computed profile: `ValueError` when no entry passes the `is not None`
filter, otherwise the Python `min` by value. -/
def coldest_month (p : List Entry) : Except String (Nat × PyF) :=
  match pymin (validEntries p) with
  | none => Except.error "No valid temperature data"
  | some r => Except.ok r

/-- Embedding of `warmest_month` (weather_data.py lines 392-400) applied to
the computed profile. -/
def warmest_month (p : List Entry) : Except String (Nat × PyF) :=
  match pymax (validEntries p) with
  | none => Except.error "No valid temperature data"
  | some r => Except.ok r

/-! ### Concrete test windows and profiles -/

/-- A window with five valid January days of a single year: every
(year, month) group is below the default threshold of 23. -/
def janFiveDays : List DailyRecord :=
  [⟨2000, 1, some 1⟩, ⟨2000, 1, some 2⟩, ⟨2000, 1, some 3⟩,
   ⟨2000, 1, some 4⟩, ⟨2000, 1, some 5⟩]

/-- A profile whose January entry is NaN while February and March hold the
tied extreme value 291. -/
def nanTieProfile : List Entry :=
  [Entry.nan, Entry.val 291, Entry.val 291] ++ List.replicate 9 Entry.unset

/-- A window with a single January record whose field value is missing. -/
def janAbsent : List DailyRecord := [⟨2000, 1, none⟩]

/-- Two Januaries: year 2000 with one valid day of value 10, year 2001 with
a record whose field value is missing. -/
def twoYearJan : List DailyRecord := [⟨2000, 1, some 10⟩, ⟨2001, 1, none⟩]

/-- Two Januaries: year 2000 with two valid days (10 and 20), year 2001 with
a single valid day (100); with threshold 2 only year 2000 qualifies. -/
def janAB : List DailyRecord :=
  [⟨2000, 1, some 10⟩, ⟨2000, 1, some 20⟩, ⟨2001, 1, some 100⟩]

end Fluids

namespace Fluids

theorem cached_address_nil (a : String) : cached_address a [] = none := rfl

theorem cached_address_absent (a : String) (db : CacheDB)
    (h : a ∉ cacheKeys db) : cached_address a db = none := by
  induction db with
  | nil => rfl
  | cons row rest ih =>
      simp only [cacheKeys, List.map_cons, List.mem_cons] at h
      push_neg at h
      have hne : ¬ (row.1 = a) := fun hc => h.1 hc.symm
      show ((row :: rest).find? (fun r => r.1 = a)).map (fun r => r.2) = none
      rw [List.find?_cons_of_neg _ (by simpa using hne)]
      exact ih h.2

theorem cache_len_insert_fresh (a : String) (la lo : ℚ) (db : CacheDB)
    (h : a ∉ cacheKeys db) :
    cache_len (cache_address a la lo db) = cache_len db + 1 := by
  simp only [cache_len, cache_address, List.length_cons, Nat.add_right_cancel_iff]
  rw [List.filter_eq_self.mpr]
  intro r hr
  have hk : r.1 ∈ cacheKeys db := List.mem_map_of_mem _ hr
  have hne : ¬ r.1 = a := fun hc => h (hc ▸ hk)
  exact decide_eq_true hne

theorem cache_len_insert_again (a : String) (la lo la2 lo2 : ℚ) (db : CacheDB) :
    cache_len (cache_address a la2 lo2 (cache_address a la lo db)) =
      cache_len (cache_address a la lo db) := by
  simp [cache_len, cache_address, List.filter_filter]

theorem cached_address_insert_self (a : String) (la lo : ℚ) (db : CacheDB) :
    cached_address a (cache_address a la lo db) = some (la, lo) := by
  simp [cached_address, cache_address, List.find?]

/-- C3: for every address present in a readable cache, `geocode` returns the
cached (latitude, longitude) pair and never invokes the external provider. -/
theorem geocode_cache_hit (w : GeoWorld) (address : String) (la lo : ℚ)
    (havail : w.geopyAvailable = true) (hok : w.cacheOk = true)
    (hhit : cached_address address w.cacheDB = some (la, lo)) :
    (geocode w address).result = Except.ok (la, lo) ∧
      (geocode w address).providerCalls = 0 := by
  simp [geocode, havail, hok, hhit]

/-- Witness for C3 at the cache of the spec's end-to-end example. -/
theorem geocode_cache_hit_witness :
    (geocode
        ⟨true, true, true, [("Fredericton, NB", 45966/1000, -66646/1000)],
          fun _ => none⟩
        "Fredericton, NB").result = Except.ok (45966/1000, -66646/1000) ∧
      (geocode
        ⟨true, true, true, [("Fredericton, NB", 45966/1000, -66646/1000)],
          fun _ => none⟩
        "Fredericton, NB").providerCalls = 0 :=
  geocode_cache_hit _ "Fredericton, NB" (45966/1000) (-66646/1000)
    rfl rfl (by simp [cached_address, List.find?])

/-- C5: when `geocode` can obtain a coordinate result, cache failures are
harmless: a read failure still yields the provider's answer with no error, the
write-failure flag never changes the returned result, and the call never
fails. -/
theorem geocode_cache_failure_harmless (w : GeoWorld) (address : String)
    (r : ℚ × ℚ) (havail : w.geopyAvailable = true)
    (hprov : w.provider address = some r) :
    (geocode { w with cacheOk := false } address).result = Except.ok r ∧
    (geocode { w with cacheOk := false } address).finalDB = w.cacheDB ∧
    (∀ b : Bool, (geocode { w with writeOk := b } address).result =
        (geocode w address).result) ∧
    (∃ p, (geocode w address).result = Except.ok p) := by
  refine ⟨?_, ?_, ?_, ?_⟩
  · simp [geocode, geocodeOnline, geopy_geolocator, havail, hprov]
  · simp [geocode, geocodeOnline, geopy_geolocator, havail, hprov]
  · intro b
    rcases hc : w.cacheOk with _ | _
    · simp [geocode, geocodeOnline, geopy_geolocator, havail, hprov, hc]
    · rcases hhit : cached_address address w.cacheDB with _ | p
      · simp [geocode, geocodeOnline, geopy_geolocator, havail, hprov, hc, hhit]
      · simp [geocode, havail, hc, hhit]
  · rcases hc : w.cacheOk with _ | _
    · exact ⟨r, by simp [geocode, geocodeOnline, geopy_geolocator, havail, hprov, hc]⟩
    · rcases hhit : cached_address address w.cacheDB with _ | p
      · exact ⟨r, by simp [geocode, geocodeOnline, geopy_geolocator, havail, hprov, hc, hhit]⟩
      · exact ⟨p, by simp [geocode, havail, hc, hhit]⟩

/-- Witness for C5: empty unreadable cache, provider answers (1, 2). -/
theorem geocode_cache_failure_harmless_witness :
    (geocode ⟨true, false, true, [], fun _ => some (1, 2)⟩ "Houston, TX").result
      = Except.ok (1, 2) :=
  (geocode_cache_failure_harmless ⟨true, true, true, [], fun _ => some (1, 2)⟩
    "Houston, TX" (1, 2) rfl rfl).1

/-- C6: `geocode` fails with `ImportError` exactly when geopy is unavailable,
and on a cache miss (absent key or unreadable cache) it fails with
`ValueError` carrying the original address exactly when the provider has no
match; the two error kinds are distinct constructors. -/
theorem geocode_error_kinds (w : GeoWorld) (address : String) :
    ((geocode w address).result = Except.error GeoErr.importErr ↔
      w.geopyAvailable = false) ∧
    (w.geopyAvailable = true →
      (w.cacheOk = false ∨ cached_address address w.cacheDB = none) →
      ((geocode w address).result = Except.error (GeoErr.valueErr address) ↔
        w.provider address = none)) := by
  constructor
  · rcases ha : w.geopyAvailable with _ | _
    · simp [geocode, ha]
    · simp only [Bool.true_eq_false, iff_false]
      rcases hc : w.cacheOk with _ | _
      · rcases hp : w.provider address with _ | r <;>
          simp [geocode, geocodeOnline, geopy_geolocator, ha, hc, hp]
      · rcases hhit : cached_address address w.cacheDB with _ | p
        · rcases hp : w.provider address with _ | r <;>
            simp [geocode, geocodeOnline, geopy_geolocator, ha, hc, hhit, hp]
        · simp [geocode, ha, hc, hhit]
  · intro ha hmiss
    rcases hp : w.provider address with _ | r
    · simp only [iff_true]
      rcases hmiss with hc | hhit
      · simp [geocode, geocodeOnline, geopy_geolocator, ha, hc, hp]
      · rcases hc : w.cacheOk with _ | _
        · simp [geocode, geocodeOnline, geopy_geolocator, ha, hc, hp]
        · simp [geocode, geocodeOnline, geopy_geolocator, ha, hc, hhit, hp]
    · simp only [reduceCtorEq, iff_false]
      rcases hmiss with hc | hhit
      · simp [geocode, geocodeOnline, geopy_geolocator, ha, hc, hp]
      · rcases hc : w.cacheOk with _ | _
        · simp [geocode, geocodeOnline, geopy_geolocator, ha, hc, hp]
        · simp [geocode, geocodeOnline, geopy_geolocator, ha, hc, hhit, hp]

/-- Witness for C6: empty readable cache, provider with no match. -/
theorem geocode_error_kinds_witness :
    (geocode ⟨true, true, true, [], fun _ => none⟩ "Nowhere").result =
      Except.error (GeoErr.valueErr "Nowhere") :=
  ((geocode_error_kinds ⟨true, true, true, [], fun _ => none⟩ "Nowhere").2
    rfl (Or.inr rfl)).mpr rfl

/-- C10: when geopy is not importable, `geocode` raises `ImportError` for
every address — even one present in the cache — and the cache is never
consulted. -/
theorem geocode_geopy_missing (w : GeoWorld) (address : String)
    (h : w.geopyAvailable = false) :
    (geocode w address).result = Except.error GeoErr.importErr ∧
      (geocode w address).cacheReads = 0 := by
  simp [geocode, h]

/-- Witness for C10 at a world whose cache already holds the address. -/
theorem geocode_geopy_missing_witness :
    (geocode ⟨false, true, true, [("Houston, TX", 2976/100, -9537/100)],
        fun _ => none⟩ "Houston, TX").result = Except.error GeoErr.importErr ∧
      (geocode ⟨false, true, true, [("Houston, TX", 2976/100, -9537/100)],
        fun _ => none⟩ "Houston, TX").cacheReads = 0 :=
  geocode_geopy_missing _ "Houston, TX" rfl

/-- C7: store-then-lookup round-trip, lookup of an absent key (also on the
empty store) is unset, last-write-wins on double store, and the row count
grows with unique addresses, not with store calls. -/
theorem cache_store_lookup_props (db : CacheDB) (a a' : String)
    (la lo la2 lo2 : ℚ) :
    cached_address a (cache_address a la lo db) = some (la, lo) ∧
    cached_address a' ([] : CacheDB) = none ∧
    (a' ∉ cacheKeys db → cached_address a' db = none) ∧
    cached_address a (cache_address a la2 lo2 (cache_address a la lo db)) =
      some (la2, lo2) ∧
    cache_len (cache_address a la2 lo2 (cache_address a la lo db)) =
      cache_len (cache_address a la lo db) ∧
    (a ∉ cacheKeys db →
      cache_len (cache_address a la lo db) = cache_len db + 1) :=
  ⟨cached_address_insert_self a la lo db,
   cached_address_nil a',
   fun h => cached_address_absent a' db h,
   cached_address_insert_self a la2 lo2 (cache_address a la lo db),
   cache_len_insert_again a la lo la2 lo2 db,
   fun h => cache_len_insert_fresh a la lo db h⟩

/-- Witness for C7 on the spec's Houston example. -/
theorem cache_store_lookup_props_witness :
    cached_address "Houston, TX"
        (cache_address "Houston, TX" (2976/100) (-9537/100) []) =
      some (2976/100, -9537/100) ∧
    cached_address "Unknown City" ([] : CacheDB) = none ∧
    cache_len (cache_address "Houston, TX" 1 2
        (cache_address "Houston, TX" (2976/100) (-9537/100) [])) =
      cache_len (cache_address "Houston, TX" (2976/100) (-9537/100) []) ∧
    cache_len (cache_address "Houston, TX" (2976/100) (-9537/100) []) = 1 := by
  have h := cache_store_lookup_props [] "Houston, TX" "Unknown City"
    (2976/100) (-9537/100) 1 2
  exact ⟨h.1, h.2.2.1 (by decide), h.2.2.2.2.1, h.2.2.2.2.2 (by decide)⟩

/-- C9: with `truncate=false` heating degree days are the negation of cooling
degree days, and with `truncate=true` they equal `max 0 (T_base - T)`; both
functions are total over the rationals by construction. -/
theorem degree_days_props (T T_base : ℚ) :
    heating_degree_days T T_base false = -(cooling_degree_days T T_base false) ∧
    heating_degree_days T T_base true = max 0 (T_base - T) := by
  constructor
  · simp [heating_degree_days, cooling_degree_days]
  · rfl

theorem filterMap_eq_map_filter {α β : Type} (f : α → Option β) (p : α → Bool)
    (g : α → β) (l : List α)
    (h : ∀ a ∈ l, f a = if p a then some (g a) else none) :
    l.filterMap f = (l.filter p).map g := by
  induction l with
  | nil => rfl
  | cons x xs ih =>
      have hx := h x (List.mem_cons_self x xs)
      have hxs := ih (fun a ha => h a (List.mem_cons_of_mem x ha))
      cases hp : p x with
      | false => simp [List.filterMap_cons, List.filter_cons, hx, hp, hxs]
      | true => simp [List.filterMap_cons, List.filter_cons, hx, hp, hxs]

theorem qualifyingKeys_eq_filter (rs : List DailyRecord) (minDays m : Nat) :
    qualifyingKeys rs minDays m =
      ((groupKeys rs).filter (fun k => k.2 = m)).filter
        (fun k => minDays ≤ groupCount rs k.1 k.2) := by
  rw [qualifyingKeys, List.filter_filter]
  apply List.filter_congr
  intro k hk
  simp [Bool.and_comm]

theorem groupVals_length_pos (rs : List DailyRecord) (minDays : Nat)
    (y : Int) (m : Nat) (hmin : 1 ≤ minDays)
    (hle : minDays ≤ groupCount rs y m) : groupVals rs y m ≠ [] := by
  intro h0
  rw [groupCount, h0] at hle
  simp at hle
  omega

theorem filterMap_surviving_eq (rs : List DailyRecord) (minDays m : Nat)
    (hmin : 1 ≤ minDays) :
    ((groupKeys rs).filter (fun k => k.2 = m)).filterMap
        (fun k => survivingMean rs minDays k.1 k.2) =
      (qualifyingKeys rs minDays m).map
        (fun k => (groupVals rs k.1 k.2).sum / (groupVals rs k.1 k.2).length) := by
  rw [qualifyingKeys_eq_filter]
  apply filterMap_eq_map_filter
  intro k hk
  by_cases hc : groupCount rs k.1 k.2 < minDays
  · have hnle : ¬ minDays ≤ groupCount rs k.1 k.2 := by omega
    rw [survivingMean, if_pos hc]
    simp [hnle]
  · have hle : minDays ≤ groupCount rs k.1 k.2 := by omega
    have hne : groupVals rs k.1 k.2 ≠ [] :=
      groupVals_length_pos rs minDays k.1 k.2 hmin hle
    rw [survivingMean, if_neg hc, pandasMean, if_neg hne]
    simp [hle]

theorem monthEntry_eq_spec (rs : List DailyRecord) (minDays m : Nat)
    (hmin : 1 ≤ minDays) (q : ℚ)
    (hspec : specMonthValue rs minDays m = some q) :
    monthEntry rs minDays m = Entry.val q := by
  have hQne : qualifyingKeys rs minDays m ≠ [] := by
    intro h0
    rw [specMonthValue, h0] at hspec
    simp [pandasMean] at hspec
  have hKne : (groupKeys rs).filter (fun k => k.2 = m) ≠ [] := by
    intro h0
    apply hQne
    rw [qualifyingKeys_eq_filter, h0]
    rfl
  simp only [monthEntry]
  rw [if_neg hKne, filterMap_surviving_eq rs minDays m hmin]
  rw [specMonthValue] at hspec
  rw [hspec]

theorem monthEntry_unset_iff (rs : List DailyRecord) (minDays m : Nat)
    (hmin : 1 ≤ minDays) :
    ((monthEntry rs minDays m).isSet = false ↔
      qualifyingKeys rs minDays m = []) := by
  by_cases hK : (groupKeys rs).filter (fun k => k.2 = m) = []
  · have hQ : qualifyingKeys rs minDays m = [] := by
      rw [qualifyingKeys_eq_filter, hK]
      rfl
    simp [monthEntry, hK, hQ, Entry.isSet]
  · simp only [monthEntry, if_neg hK, filterMap_surviving_eq rs minDays m hmin]
    by_cases hQ : qualifyingKeys rs minDays m = []
    · simp [hQ, pandasMean, Entry.isSet]
    · have hmapne : (qualifyingKeys rs minDays m).map
          (fun k => (groupVals rs k.1 k.2).sum /
            (groupVals rs k.1 k.2).length) ≠ [] := by
        simp [hQ]
      rw [pandasMean, if_neg hmapne]
      simp [Entry.isSet, hQ]

theorem month_average_getD (rs : List DailyRecord) (minDays i : Nat)
    (hrs : rs ≠ []) (hi : i < 12) :
    (month_average rs minDays).getD i Entry.unset =
      monthEntry rs minDays (i + 1) := by
  simp [month_average, hrs, List.getD_eq_getElem?_getD, List.getElem?_map,
    List.getElem?_range, hi]

/-- C1 (amended): with a threshold of at least one day, whenever the
unweighted arithmetic mean of the per-(year, month) means over exactly the
qualifying years is defined for a month, the profile entry produced by the
aggregation equals it — each qualifying year contributing with weight 1. -/
theorem month_average_mean_of_means (rs : List DailyRecord) (minDays i : Nat)
    (q : ℚ) (hmin : 1 ≤ minDays) (hi : i < 12)
    (hspec : specMonthValue rs minDays (i + 1) = some q) :
    (month_average rs minDays).getD i Entry.unset = Entry.val q := by
  by_cases hrs : rs = []
  · exfalso
    subst hrs
    rw [specMonthValue] at hspec
    simp [qualifyingKeys, groupKeys, pandasMean] at hspec
  · rw [month_average_getD rs minDays i hrs hi]
    exact monthEntry_eq_spec rs minDays (i + 1) hmin q hspec

/-- Witness for C1: with threshold 2 only year 2000 qualifies for January, so
the entry is its mean 15 alone — year 2001's lone value 100 is excluded, not
blended. -/
theorem month_average_mean_of_means_witness :
    (month_average janAB 2).getD 0 Entry.unset = Entry.val 15 :=
  month_average_mean_of_means janAB 2 0 15 (by decide) (by decide)
    (by
      have hq : qualifyingKeys janAB 2 1 = [(2000, 1)] := rfl
      have hv0 : groupVals janAB 2000 1 = [10, 20] := rfl
      simp [specMonthValue, hq, hv0, pandasMean]
      norm_num)

/-- C1 counterexample at threshold 0: the (2001, January) group qualifies
with zero valid samples, so the claimed mean over qualifying years is 5, yet
the pipeline drops the NA mean and produces year 2000's mean 10 alone. -/
theorem month_average_mean_of_means_cex :
    specMonthValue twoYearJan 0 1 = some 5 ∧
      (month_average twoYearJan 0).getD 0 Entry.unset = Entry.val 10 ∧
      Entry.val (10 : ℚ) ≠ Entry.val (5 : ℚ) := by
  have hv0 : groupVals twoYearJan 2000 1 = [10] := rfl
  have hv1 : groupVals twoYearJan 2001 1 = [] := rfl
  have hks : (groupKeys twoYearJan).filter (fun k => k.2 = 1) =
      [(2000, 1), (2001, 1)] := rfl
  have hq : qualifyingKeys twoYearJan 0 1 = [(2000, 1), (2001, 1)] := rfl
  have hs0 : survivingMean twoYearJan 0 2000 1 = some 10 := by
    simp [survivingMean, groupCount, hv0, pandasMean]
  have hs1 : survivingMean twoYearJan 0 2001 1 = none := by
    simp [survivingMean, groupCount, hv1, pandasMean]
  refine ⟨?_, ?_, by decide⟩
  · simp [specMonthValue, hq, hv0, hv1, pandasMean]
    norm_num
  · rw [month_average_getD twoYearJan 0 0 (by decide) (by decide)]
    simp [monthEntry, hks, hs0, hs1, pandasMean]

/-- C2 (amended): with a threshold of at least one day the profile always has
exactly 12 entries; an entry holds no number precisely when no year's group
for that month qualified; a zero-record window yields 12 unset entries with
no error; and a field wholly absent across the window yields a profile with
no numeric entry at all. -/
theorem month_average_profile_shape (rs : List DailyRecord) (minDays : Nat)
    (hmin : 1 ≤ minDays) :
    (month_average rs minDays).length = 12 ∧
    (∀ i, i < 12 →
      (((month_average rs minDays).getD i Entry.unset).isSet = false ↔
        qualifyingKeys rs minDays (i + 1) = [])) ∧
    month_average [] minDays = List.replicate 12 Entry.unset ∧
    ((∀ r ∈ rs, r.value = none) → ∀ i, i < 12 →
      ((month_average rs minDays).getD i Entry.unset).isSet = false) := by
  have hiff : ∀ i, i < 12 →
      (((month_average rs minDays).getD i Entry.unset).isSet = false ↔
        qualifyingKeys rs minDays (i + 1) = []) := by
    intro i hi
    by_cases hrs : rs = []
    · subst hrs
      have h1 : (month_average [] minDays).getD i Entry.unset = Entry.unset := by
        have h2 : month_average ([] : List DailyRecord) minDays =
            List.replicate 12 Entry.unset := rfl
        rw [h2]
        interval_cases i <;> rfl
      rw [h1]
      exact ⟨fun _ => rfl, fun _ => rfl⟩
    · rw [month_average_getD rs minDays i hrs hi]
      exact monthEntry_unset_iff rs minDays (i + 1) hmin
  refine ⟨?_, hiff, rfl, ?_⟩
  · by_cases hrs : rs = []
    · subst hrs
      rfl
    · simp [month_average, hrs]
  · intro hall i hi
    apply (hiff i hi).mpr
    rw [qualifyingKeys]
    refine List.filter_eq_nil_iff.mpr ?_
    intro k hk
    simp only [decide_eq_true_eq, not_and]
    intro _
    have hgv : groupVals rs k.1 k.2 = [] := by
      refine List.filterMap_eq_nil_iff.mpr ?_
      intro r hr
      by_cases hc : r.year = k.1 ∧ r.month = k.2
      · simp [hc, hall r hr]
      · simp [hc]
    rw [groupCount, hgv]
    simp only [List.length_nil]
    omega

/-- Witness for C2 at a single-record window under the default threshold 23:
the profile has 12 entries and the January entry holds no number, since the
lone one-day group does not qualify. -/
theorem month_average_profile_shape_witness :
    (month_average [⟨2000, 1, some 10⟩] 23).length = 12 ∧
      ((month_average [⟨2000, 1, some 10⟩] 23).getD 0 Entry.unset).isSet =
        false := by
  have h := month_average_profile_shape [⟨2000, 1, some 10⟩] 23 (by decide)
  exact ⟨h.1, (h.2.1 0 (by decide)).mpr (by decide)⟩

/-- C2 counterexample at threshold 0: the single (2000, January) group
qualifies with zero valid samples (0 ≤ 0), yet the January entry holds no
number — "unset iff no qualifying year" fails for a threshold of 0. -/
theorem month_average_profile_shape_cex :
    ((month_average janAbsent 0).getD 0 Entry.unset).isSet = false ∧
      qualifyingKeys janAbsent 0 1 ≠ [] :=
  ⟨rfl, by decide⟩

/-- C4 (code bug): over a window whose only group has 5 valid days against
threshold 23, every profile entry holds no number, yet `coldest_month` and
`warmest_month` do not raise: the NA January mean survives as NaN, passes the
`is not None` filter, and a (0, NaN) sentinel is returned. -/
theorem coldest_month_nan_sentinel :
    (∀ e ∈ month_average janFiveDays 23, e.isSet = false) ∧
      coldest_month (month_average janFiveDays 23) = Except.ok (0, PyF.nan) ∧
      warmest_month (month_average janFiveDays 23) = Except.ok (0, PyF.nan) :=
  ⟨by decide, rfl, rfl⟩

/-- C8 (code bug): on a profile with a NaN January entry and the tied extreme
value 291 at indices 1 and 2, both scans return index 0 with NaN instead of
the first tied set entry, because every float comparison against NaN is
false and the scan never replaces its initial element. -/
theorem extreme_month_nan_tie :
    coldest_month nanTieProfile = Except.ok (0, PyF.nan) ∧
      warmest_month nanTieProfile = Except.ok (0, PyF.nan) ∧
      nanTieProfile.getD 1 Entry.unset = Entry.val 291 ∧
      nanTieProfile.getD 2 Entry.unset = Entry.val 291 :=
  ⟨rfl, rfl, rfl, rfl⟩

theorem validEntries_eq_nil_iff (p : List Entry) :
    validEntries p = [] ↔ ∀ e ∈ p, e = Entry.unset := by
  rw [validEntries, List.filterMap_eq_nil_iff]
  constructor
  · intro h e he
    have hmem : e ∈ p.enum.map Prod.snd := by
      rw [List.enum_map_snd]
      exact he
    rcases List.mem_map.mp hmem with ⟨it, hit, hsnd⟩
    have hnone := h it hit
    rcases it with ⟨i, e'⟩
    cases e' with
    | unset => exact hsnd.symm
    | nan => exact absurd hnone (by simp)
    | val q => exact absurd hnone (by simp)
  · intro h it hit
    rcases it with ⟨i, e⟩
    have he : e ∈ p := by
      have hmem : e ∈ p.enum.map Prod.snd :=
        List.mem_map_of_mem Prod.snd hit
      rwa [List.enum_map_snd] at hmem
    rw [show e = Entry.unset from h e he]

/-- The scans raise precisely when every profile entry is Python `None`: a
NaN entry suppresses the error (this is the exact error condition behind the
C4 discrepancy). -/
theorem extreme_month_error_iff (p : List Entry) :
    (coldest_month p = Except.error "No valid temperature data" ↔
      ∀ e ∈ p, e = Entry.unset) ∧
    (warmest_month p = Except.error "No valid temperature data" ↔
      ∀ e ∈ p, e = Entry.unset) := by
  rw [← validEntries_eq_nil_iff]
  rcases hve : validEntries p with _ | ⟨x, xs⟩
  · simp [coldest_month, warmest_month, pymin, pymax, hve]
  · simp [coldest_month, warmest_month, pymin, pymax, hve]

theorem pfLt_irrefl (a : PyF) : pfLt a a = false := by
  cases a with
  | nan => rfl
  | val q => simp [pfLt]

theorem pfLt_asymm {a b : PyF} (h : pfLt a b = true) : pfLt b a = false := by
  cases a with
  | nan => simp [pfLt] at h
  | val x =>
      cases b with
      | nan => simp [pfLt] at h
      | val y =>
          simp only [pfLt, decide_eq_true_eq] at h ⊢
          simp [le_of_lt h]

theorem pfLt_of_not_lt_of_lt {r z b : PyF} (hr : r ≠ PyF.nan)
    (h1 : pfLt z r = false) (h2 : pfLt z b = true) : pfLt r b = true := by
  cases z with
  | nan => simp [pfLt] at h2
  | val zq =>
      cases b with
      | nan => simp [pfLt] at h2
      | val bq =>
          cases r with
          | nan => exact absurd rfl hr
          | val rq =>
              simp only [pfLt, decide_eq_true_eq, decide_eq_false_iff_not] at *
              exact lt_of_le_of_lt (not_lt.mp h1) h2

theorem pfLt_of_lt_of_not_lt {r b z : PyF} (hz : z ≠ PyF.nan)
    (h1 : pfLt r b = true) (h2 : pfLt z b = false) : pfLt r z = true := by
  cases r with
  | nan => simp [pfLt] at h1
  | val rq =>
      cases b with
      | nan => simp [pfLt] at h1
      | val bq =>
          cases z with
          | nan => exact absurd rfl hz
          | val zq =>
              simp only [pfLt, decide_eq_true_eq, decide_eq_false_iff_not] at *
              exact lt_of_lt_of_le h1 (not_lt.mp h2)

theorem foldl_min_decomp (xs : List (Nat × PyF)) (b : Nat × PyF)
    (hb : b.2 ≠ PyF.nan) (hxs : ∀ y ∈ xs, y.2 ≠ PyF.nan) :
    ∃ l1 l2,
      b :: xs =
        l1 ++ (xs.foldl (fun best y => if pfLt y.2 best.2 then y else best) b)
          :: l2 ∧
      (∀ y ∈ l1,
        pfLt (xs.foldl (fun best y => if pfLt y.2 best.2 then y else best) b).2
          y.2 = true) ∧
      (∀ y ∈ b :: xs,
        pfLt y.2
          (xs.foldl (fun best y => if pfLt y.2 best.2 then y else best) b).2 =
          false) := by
  induction xs generalizing b with
  | nil =>
      refine ⟨[], [], rfl, by simp, ?_⟩
      intro y hy
      rw [List.mem_singleton.mp hy]
      exact pfLt_irrefl _
  | cons z zs ih =>
      have hz : z.2 ≠ PyF.nan := hxs z (List.mem_cons_self z zs)
      have hzs : ∀ y ∈ zs, y.2 ≠ PyF.nan :=
        fun y hy => hxs y (List.mem_cons_of_mem z hy)
      by_cases hlt : pfLt z.2 b.2 = true
      · have hfold : (z :: zs).foldl
            (fun best y => if pfLt y.2 best.2 then y else best) b =
            zs.foldl (fun best y => if pfLt y.2 best.2 then y else best) z := by
          rw [List.foldl_cons, if_pos hlt]
        rcases ih z hz hzs with ⟨l1, l2, hdec, hgt, hle⟩
        rw [hfold]
        set r := zs.foldl (fun best y => if pfLt y.2 best.2 then y else best) z
          with hr
        have hrmem : r ∈ z :: zs := by
          rw [hdec]
          exact List.mem_append_right l1 (List.mem_cons_self r l2)
        have hrnan : r.2 ≠ PyF.nan := hxs r hrmem
        have hrb : pfLt r.2 b.2 = true :=
          pfLt_of_not_lt_of_lt hrnan (hle z (List.mem_cons_self z zs)) hlt
        refine ⟨b :: l1, l2, ?_, ?_, ?_⟩
        · rw [List.cons_append, ← hdec]
        · intro y hy
          rcases List.mem_cons.mp hy with hyb | hy1
          · rw [hyb]
            exact hrb
          · exact hgt y hy1
        · intro y hy
          rcases List.mem_cons.mp hy with hyb | hy2
          · rw [hyb]
            exact pfLt_asymm hrb
          · exact hle y hy2
      · have hfold : (z :: zs).foldl
            (fun best y => if pfLt y.2 best.2 then y else best) b =
            zs.foldl (fun best y => if pfLt y.2 best.2 then y else best) b := by
          rw [List.foldl_cons, if_neg (by simp [hlt])]
        rcases ih b hb hzs with ⟨l1, l2, hdec, hgt, hle⟩
        rw [hfold]
        set r := zs.foldl (fun best y => if pfLt y.2 best.2 then y else best) b
          with hr
        cases l1 with
        | nil =>
            have hrb : r = b := (List.cons.injEq _ _ _ _).mp hdec.symm |>.1
            have hl2 : l2 = zs := (List.cons.injEq _ _ _ _).mp hdec.symm |>.2
            refine ⟨[], z :: zs, ?_, by simp, ?_⟩
            · rw [List.nil_append, hrb]
            · intro y hy
              rcases List.mem_cons.mp hy with hyb | hy2
              · rw [hyb, hrb]
                exact pfLt_irrefl _
              · rcases List.mem_cons.mp hy2 with hyz | hyzs
                · rw [hyz, hrb]
                  exact (Bool.not_eq_true _).mp hlt
                · exact hle y (List.mem_cons_of_mem b hyzs)
        | cons b' l1' =>
            have hb' : b' = b ∧ zs = l1' ++ r :: l2 := by
              rw [List.cons_append] at hdec
              exact ⟨((List.cons.injEq _ _ _ _).mp hdec).1.symm,
                ((List.cons.injEq _ _ _ _).mp hdec).2⟩
            have hrb : pfLt r.2 b.2 = true := by
              have := hgt b' (List.mem_cons_self b' l1')
              rw [hb'.1] at this
              exact this
            have hrz : pfLt r.2 z.2 = true :=
              pfLt_of_lt_of_not_lt hz hrb ((Bool.not_eq_true _).mp hlt)
            refine ⟨b :: z :: l1', l2, ?_, ?_, ?_⟩
            · rw [hb'.2]
              simp
            · intro y hy
              rcases List.mem_cons.mp hy with hyb | hy1
              · rw [hyb]
                exact hrb
              · rcases List.mem_cons.mp hy1 with hyz | hy1'
                · rw [hyz]
                  exact hrz
                · exact hgt y (List.mem_cons_of_mem b' hy1')
            · intro y hy
              rcases List.mem_cons.mp hy with hyb | hy2
              · rw [hyb]
                exact hle b (List.mem_cons_self b zs)
              · rcases List.mem_cons.mp hy2 with hyz | hyzs
                · rw [hyz]
                  exact pfLt_asymm hrz
                · exact hle y (List.mem_cons_of_mem b hyzs)

theorem validEntries_no_nan (p : List Entry) (hnn : Entry.nan ∉ p) :
    ∀ y ∈ validEntries p, y.2 ≠ PyF.nan := by
  intro y hy
  rw [validEntries] at hy
  rcases List.mem_filterMap.mp hy with ⟨it, hit, hf⟩
  rcases it with ⟨i, e⟩
  have he : e ∈ p := by
    have hmem : e ∈ p.enum.map Prod.snd := List.mem_map_of_mem Prod.snd hit
    rwa [List.enum_map_snd] at hmem
  cases e with
  | unset => exact absurd hf (by simp)
  | nan => exact absurd he hnn
  | val q =>
      have hxy : ((i, Entry.val q).1, PyF.val q) = y := Option.some.inj hf
      rw [← hxy]
      simp

theorem filterMap_valid_fst_sublist (l : List (Nat × Entry)) :
    ((l.filterMap (fun it =>
        match it.2 with
        | Entry.unset => none
        | Entry.nan => some (it.1, PyF.nan)
        | Entry.val q => some (it.1, PyF.val q))).map Prod.fst).Sublist
      (l.map Prod.fst) := by
  induction l with
  | nil => simp
  | cons it l ih =>
      rcases it with ⟨i, e⟩
      cases e with
      | unset =>
          simp only [List.filterMap_cons, List.map_cons]
          exact ih.cons i
      | nan =>
          simp only [List.filterMap_cons, List.map_cons]
          exact ih.cons₂ i
      | val q =>
          simp only [List.filterMap_cons, List.map_cons]
          exact ih.cons₂ i

theorem validEntries_idx_sorted (p : List Entry) :
    ((validEntries p).map Prod.fst).Sorted (· < ·) := by
  have hsub := filterMap_valid_fst_sublist p.enum
  rw [List.enum_map_fst] at hsub
  exact List.Pairwise.sublist hsub (List.sorted_lt_range p.length)

theorem pymin_first (l : List (Nat × PyF)) (x : Nat × PyF)
    (hnn : ∀ y ∈ l, y.2 ≠ PyF.nan) (hx : pymin l = some x) :
    ∃ l1 l2, l = l1 ++ x :: l2 ∧ (∀ y ∈ l1, pfLt x.2 y.2 = true) ∧
      (∀ y ∈ l, pfLt y.2 x.2 = false) := by
  cases l with
  | nil => exact absurd hx (by simp [pymin])
  | cons b xs =>
      have hb : b.2 ≠ PyF.nan := hnn b (List.mem_cons_self b xs)
      have hxs : ∀ y ∈ xs, y.2 ≠ PyF.nan :=
        fun y hy => hnn y (List.mem_cons_of_mem b hy)
      have hfold :
          xs.foldl (fun best y => if pfLt y.2 best.2 then y else best) b =
            x := Option.some.inj hx
      rcases foldl_min_decomp xs b hb hxs with ⟨l1, l2, hdec, hgt, hle⟩
      rw [hfold] at hdec hgt hle
      exact ⟨l1, l2, hdec, hgt, hle⟩

/-- On a NaN-free profile, `coldest_month` is a strict first-minimal scan of
the set entries: the returned pair is a set entry, no entry compares below
it, and every entry tied with it lies at the same or a later index.  This is
the behavior the specification describes; the C8 discrepancy arises only
from NaN entries. -/
theorem coldest_month_first_min (p : List Entry) (hnn : Entry.nan ∉ p)
    (x : Nat × PyF) (hx : coldest_month p = Except.ok x) :
    x ∈ validEntries p ∧ (∀ y ∈ validEntries p, pfLt y.2 x.2 = false) ∧
      (∀ y ∈ validEntries p, y.2 = x.2 → x.1 ≤ y.1) := by
  have hnn' := validEntries_no_nan p hnn
  rw [coldest_month] at hx
  rcases hve : pymin (validEntries p) with _ | x'
  · rw [hve] at hx
    exact absurd hx (by simp)
  · rw [hve] at hx
    have hxx : x' = x := by
      injection hx
    rw [hxx] at hve
    rcases pymin_first (validEntries p) x hnn' hve with ⟨l1, l2, hdec, hgt, hle⟩
    refine ⟨?_, hle, ?_⟩
    · rw [hdec]
      exact List.mem_append_right l1 (List.mem_cons_self x l2)
    · intro y hy hyx
      rw [hdec] at hy
      rcases List.mem_append.mp hy with h1 | h2
      · exfalso
        have hgt' := hgt y h1
        rw [hyx] at hgt'
        rw [pfLt_irrefl] at hgt'
        exact Bool.false_ne_true hgt'
      · rcases List.mem_cons.mp h2 with rfl | h3
        · exact le_refl _
        · have hsort := validEntries_idx_sorted p
          rw [hdec, List.map_append, List.map_cons] at hsort
          have hpair := (List.pairwise_append.mp hsort).2.1
          have hxlt := (List.pairwise_cons.mp hpair).1
          exact le_of_lt (hxlt y.1 (List.mem_map_of_mem Prod.fst h3))

theorem foldl_max_decomp (xs : List (Nat × PyF)) (b : Nat × PyF)
    (hb : b.2 ≠ PyF.nan) (hxs : ∀ y ∈ xs, y.2 ≠ PyF.nan) :
    ∃ l1 l2,
      b :: xs =
        l1 ++ (xs.foldl (fun best y => if pfLt best.2 y.2 then y else best) b)
          :: l2 ∧
      (∀ y ∈ l1,
        pfLt y.2
          (xs.foldl (fun best y => if pfLt best.2 y.2 then y else best) b).2 =
          true) ∧
      (∀ y ∈ b :: xs,
        pfLt (xs.foldl (fun best y => if pfLt best.2 y.2 then y else best) b).2
          y.2 = false) := by
  induction xs generalizing b with
  | nil =>
      refine ⟨[], [], rfl, by simp, ?_⟩
      intro y hy
      rw [List.mem_singleton.mp hy]
      exact pfLt_irrefl _
  | cons z zs ih =>
      have hz : z.2 ≠ PyF.nan := hxs z (List.mem_cons_self z zs)
      have hzs : ∀ y ∈ zs, y.2 ≠ PyF.nan :=
        fun y hy => hxs y (List.mem_cons_of_mem z hy)
      by_cases hlt : pfLt b.2 z.2 = true
      · have hfold : (z :: zs).foldl
            (fun best y => if pfLt best.2 y.2 then y else best) b =
            zs.foldl (fun best y => if pfLt best.2 y.2 then y else best) z := by
          rw [List.foldl_cons, if_pos hlt]
        rcases ih z hz hzs with ⟨l1, l2, hdec, hgt, hle⟩
        rw [hfold]
        set r := zs.foldl (fun best y => if pfLt best.2 y.2 then y else best) z
          with hr
        have hrmem : r ∈ z :: zs := by
          rw [hdec]
          exact List.mem_append_right l1 (List.mem_cons_self r l2)
        have hrnan : r.2 ≠ PyF.nan := hxs r hrmem
        have hrb : pfLt b.2 r.2 = true :=
          pfLt_of_lt_of_not_lt hrnan hlt (hle z (List.mem_cons_self z zs))
        refine ⟨b :: l1, l2, ?_, ?_, ?_⟩
        · rw [List.cons_append, ← hdec]
        · intro y hy
          rcases List.mem_cons.mp hy with hyb | hy1
          · rw [hyb]
            exact hrb
          · exact hgt y hy1
        · intro y hy
          rcases List.mem_cons.mp hy with hyb | hy2
          · rw [hyb]
            exact pfLt_asymm hrb
          · exact hle y hy2
      · have hfold : (z :: zs).foldl
            (fun best y => if pfLt best.2 y.2 then y else best) b =
            zs.foldl (fun best y => if pfLt best.2 y.2 then y else best) b := by
          rw [List.foldl_cons, if_neg (by simp [hlt])]
        rcases ih b hb hzs with ⟨l1, l2, hdec, hgt, hle⟩
        rw [hfold]
        set r := zs.foldl (fun best y => if pfLt best.2 y.2 then y else best) b
          with hr
        cases l1 with
        | nil =>
            have hrb : r = b := (List.cons.injEq _ _ _ _).mp hdec.symm |>.1
            refine ⟨[], z :: zs, ?_, by simp, ?_⟩
            · rw [List.nil_append, hrb]
            · intro y hy
              rcases List.mem_cons.mp hy with hyb | hy2
              · rw [hyb, hrb]
                exact pfLt_irrefl _
              · rcases List.mem_cons.mp hy2 with hyz | hyzs
                · rw [hyz, hrb]
                  exact (Bool.not_eq_true _).mp hlt
                · exact hle y (List.mem_cons_of_mem b hyzs)
        | cons b' l1' =>
            have hb' : b' = b ∧ zs = l1' ++ r :: l2 := by
              rw [List.cons_append] at hdec
              exact ⟨((List.cons.injEq _ _ _ _).mp hdec).1.symm,
                ((List.cons.injEq _ _ _ _).mp hdec).2⟩
            have hrb : pfLt b.2 r.2 = true := by
              have hgt' := hgt b' (List.mem_cons_self b' l1')
              rw [hb'.1] at hgt'
              exact hgt'
            have hrz : pfLt z.2 r.2 = true :=
              pfLt_of_not_lt_of_lt hz ((Bool.not_eq_true _).mp hlt) hrb
            refine ⟨b :: z :: l1', l2, ?_, ?_, ?_⟩
            · rw [hb'.2]
              simp
            · intro y hy
              rcases List.mem_cons.mp hy with hyb | hy1
              · rw [hyb]
                exact hrb
              · rcases List.mem_cons.mp hy1 with hyz | hy1'
                · rw [hyz]
                  exact hrz
                · exact hgt y (List.mem_cons_of_mem b' hy1')
            · intro y hy
              rcases List.mem_cons.mp hy with hyb | hy2
              · rw [hyb]
                exact hle b (List.mem_cons_self b zs)
              · rcases List.mem_cons.mp hy2 with hyz | hyzs
                · rw [hyz]
                  exact pfLt_asymm hrz
                · exact hle y (List.mem_cons_of_mem b hyzs)

theorem pymax_first (l : List (Nat × PyF)) (x : Nat × PyF)
    (hnn : ∀ y ∈ l, y.2 ≠ PyF.nan) (hx : pymax l = some x) :
    ∃ l1 l2, l = l1 ++ x :: l2 ∧ (∀ y ∈ l1, pfLt y.2 x.2 = true) ∧
      (∀ y ∈ l, pfLt x.2 y.2 = false) := by
  cases l with
  | nil => exact absurd hx (by simp [pymax])
  | cons b xs =>
      have hb : b.2 ≠ PyF.nan := hnn b (List.mem_cons_self b xs)
      have hxs : ∀ y ∈ xs, y.2 ≠ PyF.nan :=
        fun y hy => hnn y (List.mem_cons_of_mem b hy)
      have hfold :
          xs.foldl (fun best y => if pfLt best.2 y.2 then y else best) b =
            x := Option.some.inj hx
      rcases foldl_max_decomp xs b hb hxs with ⟨l1, l2, hdec, hgt, hle⟩
      rw [hfold] at hdec hgt hle
      exact ⟨l1, l2, hdec, hgt, hle⟩

/-- On a NaN-free profile, `warmest_month` is a strict first-maximal scan of
the set entries, mirroring `coldest_month_first_min`. -/
theorem warmest_month_first_max (p : List Entry) (hnn : Entry.nan ∉ p)
    (x : Nat × PyF) (hx : warmest_month p = Except.ok x) :
    x ∈ validEntries p ∧ (∀ y ∈ validEntries p, pfLt x.2 y.2 = false) ∧
      (∀ y ∈ validEntries p, y.2 = x.2 → x.1 ≤ y.1) := by
  have hnn' := validEntries_no_nan p hnn
  rw [warmest_month] at hx
  rcases hve : pymax (validEntries p) with _ | x'
  · rw [hve] at hx
    exact absurd hx (by simp)
  · rw [hve] at hx
    have hxx : x' = x := by
      injection hx
    rw [hxx] at hve
    rcases pymax_first (validEntries p) x hnn' hve with ⟨l1, l2, hdec, hgt, hle⟩
    refine ⟨?_, hle, ?_⟩
    · rw [hdec]
      exact List.mem_append_right l1 (List.mem_cons_self x l2)
    · intro y hy hyx
      rw [hdec] at hy
      rcases List.mem_append.mp hy with h1 | h2
      · exfalso
        have hgt' := hgt y h1
        rw [hyx] at hgt'
        rw [pfLt_irrefl] at hgt'
        exact Bool.false_ne_true hgt'
      · rcases List.mem_cons.mp h2 with rfl | h3
        · exact le_refl _
        · have hsort := validEntries_idx_sorted p
          rw [hdec, List.map_append, List.map_cons] at hsort
          have hpair := (List.pairwise_append.mp hsort).2.1
          have hxlt := (List.pairwise_cons.mp hpair).1
          exact le_of_lt (hxlt y.1 (List.mem_map_of_mem Prod.fst h3))

end Fluids
